import Mathlib

/-!
Verification development for the sculptor crate (src/lib.rs, src/file_io.rs,
src/project_info.rs, src/sha_snap.rs).

The persistence engine of src/lib.rs is embedded shallowly: the filesystem is
a finite map from paths to file contents plus a set of existing directories,
and each engine operation is a function from a filesystem state to a result
paired with the successor state (so that side effects performed before a
failure are retained, exactly as on a real filesystem).  Machine-level
concerns that the Rust code delegates to the OS (permissions, devices,
partial writes) are outside the model; the control flow, error kinds and
state changes of the crate's own code are embedded faithfully.
-/

namespace Sculptor

/-- Error kinds mirroring the io::ErrorKind values produced by src/lib.rs:
NotFound, InvalidInput, InvalidData and Other. -/
inductive ErrKind where
  | notFound
  | invalidInput
  | invalidData
  | otherErr
deriving DecidableEq, Repr

/-- A filesystem path, as std::path::PathBuf is used by the crate: an
absolute-path flag and a list of normal components, each component being the
character list of its name. -/
structure FsPath where
  absolute : Bool
  comps : List (List Char)
deriving DecidableEq, Repr

/-- Path::parent: drops the last component; it is none exactly for a root or
empty path.  A bare relative filename has the empty relative path as parent. -/
def parent (p : FsPath) : Option FsPath :=
  if p.comps = [] then none else some ⟨p.absolute, p.comps.dropLast⟩

/-- The file name of a path: its last component (empty for a root path). -/
def lastComp (p : FsPath) : List Char := p.comps.getLast?.getD []

/-- Splits a reversed character list at its first dot, returning the
characters before the dot and after it (both still reversed). -/
def revSplitDot : List Char → Option (List Char × List Char)
  | [] => none
  | c :: rest =>
    if c = '.' then some ([], rest)
    else
      match revSplitDot rest with
      | some pr => some (c :: pr.1, pr.2)
      | none => none

/-- Path::file_stem and Path::extension on a file name: the name splits at
its last dot, except that a dot at position zero (hidden files) does not
count as a separator.  Returns the stem and, when present, the extension. -/
def rustSplit (cs : List Char) : List Char × Option (List Char) :=
  match revSplitDot cs.reverse with
  | none => (cs, none)
  | some pr =>
    if pr.2 = [] then (cs, none)
    else (pr.2.reverse, some pr.1.reverse)

/-- Path::with_extension with a nonempty extension: the file name becomes
the stem followed by a dot and the new extension; a path without a file
name is returned unchanged. -/
def withExtension (p : FsPath) (newExt : List Char) : FsPath :=
  if p.comps = [] then p
  else ⟨p.absolute, p.comps.dropLast ++ [(rustSplit (lastComp p)).1 ++ '.' :: newExt]⟩

/-- The extension string built by save in src/lib.rs lines 118-127: the
original extension (empty when absent), a dot, the unix timestamp in
seconds, and the literal ".bak". -/
def backupExt (p : FsPath) (ts : Nat) : List Char :=
  (rustSplit (lastComp p)).2.getD [] ++ ['.'] ++ (Nat.repr ts).toList ++ ['.', 'b', 'a', 'k']

/-- The backup path computed by save: with_extension applied to the backup
extension string. -/
def backupPath (p : FsPath) (ts : Nat) : FsPath := withExtension p (backupExt p ts)

/-- The full backup file name: stem, dot, original extension, dot,
timestamp, ".bak". -/
def backupName (p : FsPath) (ts : Nat) : List Char :=
  (rustSplit (lastComp p)).1 ++ '.' :: backupExt p ts

/-- The filesystem state: file contents by path, and the set of directories
that exist, as a list. -/
structure Fs where
  files : List (FsPath × String)
  dirs : List FsPath
deriving DecidableEq, Repr

/-- Looks up the content stored for a path. -/
def findContent (p : FsPath) : List (FsPath × String) → Option String
  | [] => none
  | e :: rest => if e.1 = p then some e.2 else findContent p rest

/-- Removes every entry stored for a path. -/
def removeEntry (p : FsPath) : List (FsPath × String) → List (FsPath × String)
  | [] => []
  | e :: rest => if e.1 = p then removeEntry p rest else e :: removeEntry p rest

/-- The content of the file at a path, when present. -/
def fileAt (fs : Fs) (p : FsPath) : Option String := findContent p fs.files

/-- fs::write: creates or truncates the file at the path with the given
content. -/
def writeFile (p : FsPath) (s : String) (fs : Fs) : Fs :=
  ⟨(p, s) :: removeEntry p fs.files, fs.dirs⟩

/-- fs::rename on an existing source file: the content moves to the
destination path (overwriting it) and the source entry disappears. -/
def renameMove (a b : FsPath) (fs : Fs) : Fs :=
  match findContent a fs.files with
  | none => fs
  | some c => ⟨(b, c) :: removeEntry b (removeEntry a fs.files), fs.dirs⟩

/-- Every nonempty component-wise ancestor of a directory path, the
directory itself included. -/
def dirChain (d : FsPath) : List FsPath :=
  (List.range d.comps.length).map (fun i => ⟨d.absolute, d.comps.take (i + 1)⟩)

/-- fs::create_dir_all: creates the directory and all missing ancestors; on
the empty path it creates nothing and succeeds (the std special case). -/
def createDirAll (d : FsPath) (fs : Fs) : Fs :=
  ⟨fs.files, dirChain d ++ fs.dirs⟩

/-- An encoding strategy, as the SerdeStr trait of src/lib.rs: serialize a
value to text and deserialize text back, either side possibly failing with
an io error kind.  The two shipped strategies (SerdeViaJson, SerdeViaToml)
surface every encode or decode failure as InvalidData. -/
structure Strategy (T : Type) where
  ser : T → Except ErrKind String
  de : String → Except ErrKind T

/-- FileIO::ensure_parent from src/lib.rs lines 98-107: fails with
InvalidInput when the path has no parent; otherwise create_dir_all on the
parent. -/
def ensure_parent (p : FsPath) (fs : Fs) : Except ErrKind Unit × Fs :=
  match parent p with
  | none => (Except.error ErrKind.invalidInput, fs)
  | some par => (Except.ok (), createDirAll par fs)

/-- Path::canonicalize as used by load_str: succeeds on an existing file,
fails with NotFound when the path does not exist. -/
def canonical (p : FsPath) (fs : Fs) : Except ErrKind FsPath :=
  if (fileAt fs p).isSome then Except.ok p else Except.error ErrKind.notFound

/-- FileIO::load_str from src/lib.rs lines 108-113: ensure_parent, then
canonicalize and read the file, then decode via the bound strategy. -/
def load_str {T : Type} (S : Strategy T) (p : FsPath) (fs : Fs) :
    Except ErrKind T × Fs :=
  match ensure_parent p fs with
  | (Except.error e, fs1) => (Except.error e, fs1)
  | (Except.ok _, fs1) =>
    match canonical p fs1 with
    | Except.error e => (Except.error e, fs1)
    | Except.ok cp =>
      match fileAt fs1 cp with
      | none => (Except.error ErrKind.notFound, fs1)
      | some str =>
        match S.de str with
        | Except.error e => (Except.error e, fs1)
        | Except.ok v => (Except.ok v, fs1)

/-- FileIO::save from src/lib.rs lines 114-134: ensure_parent; when a file
already exists at the path, rename it to the timestamped backup path; then
encode the value and write it to the path.  The timestamp is the
now_utc().unix_timestamp() value read during the call. -/
def save {T : Type} (S : Strategy T) (conf : T) (p : FsPath) (ts : Nat) (fs : Fs) :
    Except ErrKind Unit × Fs :=
  match ensure_parent p fs with
  | (Except.error e, fs1) => (Except.error e, fs1)
  | (Except.ok _, fs1) =>
    let fs2 := if (fileAt fs1 p).isSome then renameMove p (backupPath p ts) fs1 else fs1
    match S.ser conf with
    | Except.error e => (Except.error e, fs2)
    | Except.ok str => (Except.ok (), writeFile p str fs2)

/-- FileIO::load_or_init from src/lib.rs lines 135-144: try load_str; on
any failure invoke the producer, save its result, and return it (errors of
the save itself propagate). -/
def load_or_init {T : Type} (S : Strategy T) (ini : Unit → T) (p : FsPath)
    (ts : Nat) (fs : Fs) : Except ErrKind T × Fs :=
  match load_str S p fs with
  | (Except.ok v, fs1) => (Except.ok v, fs1)
  | (Except.error _, fs1) =>
    match save S (ini ()) p ts fs1 with
    | (Except.ok _, fs2) => (Except.ok (ini ()), fs2)
    | (Except.error e, fs2) => (Except.error e, fs2)

/-- FileIO::edit from src/lib.rs lines 145-158: fails with NotFound when
the EDITOR environment variable is unset; otherwise spawns the editor on
the path (the oracle argument models the subprocess: spawn failure or exit
status) and fails with an Other error exactly when the exit status reports
failure.  The engine itself touches no file. -/
def edit (editorEnv : Option (List Char))
    (run : List Char → FsPath → Except ErrKind Bool) (p : FsPath) (fs : Fs) :
    Except ErrKind Unit × Fs :=
  match editorEnv with
  | none => (Except.error ErrKind.notFound, fs)
  | some ed =>
    match run ed p with
    | Except.error e => (Except.error e, fs)
    | Except.ok true => (Except.ok (), fs)
    | Except.ok false => (Except.error ErrKind.otherErr, fs)

/-- The set of directories the directory provider reports, as
directories::ProjectDirs. -/
structure ProjectDirs where
  configDir : FsPath
  dataDir : FsPath
  cacheDir : FsPath
  stateDir : Option FsPath
deriving DecidableEq, Repr

/-- once_cell::sync::Lazy: a cell holding a closure to run on first force. -/
structure LazyCell (α : Type) where
  compute : Unit → α

/-- Lazy::new: wraps the closure; nothing runs yet. -/
def lazyNew {α : Type} (f : Unit → α) : LazyCell α := ⟨f⟩

/-- Forcing a freshly created Lazy cell runs its closure.  The counter
records how many times the directory computation has run in the process;
forcing an uncomputed cell increments it. -/
def forceFresh {α : Type} (c : LazyCell α) (n : Nat) : α × Nat :=
  (c.compute (), n + 1)

/-- lazy_project_dirs from src/project_info.rs lines 16-23: constructs a
NEW Lazy cell on every call (the cell is a local temporary of the function,
never stored anywhere), wrapping the ProjectDirs::from computation. -/
def lazy_project_dirs (f : Unit → ProjectDirs) : LazyCell ProjectDirs :=
  lazyNew f

/-- ProjectInfo::config_dir from src/project_info.rs: forces the Lazy cell
returned by lazy_project_dirs and projects the configuration directory. -/
def config_dir (f : Unit → ProjectDirs) (n : Nat) : FsPath × Nat :=
  let r := forceFresh (lazy_project_dirs f) n
  (r.1.configDir, r.2)

/-- ProjectInfo::data_dir from src/project_info.rs: forces the Lazy cell
returned by lazy_project_dirs and projects the data directory. -/
def data_dir (f : Unit → ProjectDirs) (n : Nat) : FsPath × Nat :=
  let r := forceFresh (lazy_project_dirs f) n
  (r.1.dataDir, r.2)

/-! Helper lemmas about the filesystem model. -/

theorem findContent_removeEntry_self (p : FsPath) (l : List (FsPath × String)) :
    findContent p (removeEntry p l) = none := by
  induction l with
  | nil => rfl
  | cons e rest ih =>
    by_cases h : e.1 = p
    · simp [removeEntry, h, ih]
    · simp [removeEntry, findContent, h, ih]

theorem findContent_removeEntry_ne (p q : FsPath) (l : List (FsPath × String))
    (h : q ≠ p) : findContent q (removeEntry p l) = findContent q l := by
  induction l with
  | nil => rfl
  | cons e rest ih =>
    by_cases h1 : e.1 = p
    · simp [removeEntry, findContent, h1, ih, Ne.symm h]
    · by_cases h2 : e.1 = q
      · simp [removeEntry, findContent, h1, h2, h]
      · simp [removeEntry, findContent, h1, h2, ih]

theorem fileAt_writeFile_self (p : FsPath) (s : String) (fs : Fs) :
    fileAt (writeFile p s fs) p = some s := by
  simp [fileAt, writeFile, findContent]

theorem fileAt_writeFile_ne (p q : FsPath) (s : String) (fs : Fs) (h : q ≠ p) :
    fileAt (writeFile p s fs) q = fileAt fs q := by
  have h1 : (p, s).1 ≠ q := fun hq => h hq.symm
  simp only [fileAt, writeFile, findContent, if_neg h1]
  exact findContent_removeEntry_ne p q fs.files h

theorem fileAt_renameMove_dst (a b : FsPath) (c : String) (fs : Fs)
    (hc : fileAt fs a = some c) : fileAt (renameMove a b fs) b = some c := by
  simp [fileAt] at hc
  simp [fileAt, renameMove, hc, findContent]

theorem fileAt_renameMove_src (a b : FsPath) (c : String) (fs : Fs)
    (hc : fileAt fs a = some c) (hne : b ≠ a) :
    fileAt (renameMove a b fs) a = none := by
  simp [fileAt] at hc
  have h1 : (b, c).1 ≠ a := hne
  simp only [fileAt, renameMove, hc, findContent, if_neg h1]
  rw [findContent_removeEntry_ne b a _ (fun h => hne h.symm)]
  exact findContent_removeEntry_self a fs.files

theorem fileAt_renameMove_other (a b q : FsPath) (c : String) (fs : Fs)
    (hc : fileAt fs a = some c) (hq1 : q ≠ a) (hq2 : q ≠ b) :
    fileAt (renameMove a b fs) q = fileAt fs q := by
  simp [fileAt] at hc
  have h1 : (b, c).1 ≠ q := fun h => hq2 h.symm
  simp only [fileAt, renameMove, hc, findContent, if_neg h1]
  rw [findContent_removeEntry_ne b q _ hq2]
  exact findContent_removeEntry_ne a q fs.files hq1

theorem fileAt_createDirAll (d : FsPath) (fs : Fs) (q : FsPath) :
    fileAt (createDirAll d fs) q = fileAt fs q := rfl

/-! Helper lemmas about file-name splitting and the backup name. -/

theorem revSplitDot_eq (l e s : List Char) (h : revSplitDot l = some (e, s)) :
    l = e ++ '.' :: s := by
  induction l generalizing e s with
  | nil => simp [revSplitDot] at h
  | cons c rest ih =>
    by_cases hc : c = '.'
    · simp [revSplitDot, hc] at h
      obtain ⟨h1, h2⟩ := h
      subst h1
      subst h2
      simp [hc]
    · rw [revSplitDot, if_neg hc] at h
      cases hrest : revSplitDot rest with
      | none => rw [hrest] at h; simp at h
      | some pr =>
        rw [hrest] at h
        simp at h
        have := ih pr.1 pr.2 (by rw [hrest])
        rw [← h.1, ← h.2]
        simp [this]

theorem rustSplit_none_eq (cs : List Char) (h : (rustSplit cs).2 = none) :
    (rustSplit cs).1 = cs := by
  unfold rustSplit
  cases hr : revSplitDot cs.reverse with
  | none => rfl
  | some pr =>
    unfold rustSplit at h
    rw [hr] at h
    by_cases h2 : pr.2 = []
    · simp [h2]
    · simp [h2] at h

theorem rustSplit_some_eq (cs e : List Char) (h : (rustSplit cs).2 = some e) :
    cs = (rustSplit cs).1 ++ '.' :: e := by
  cases hr : revSplitDot cs.reverse with
  | none =>
    have hx : rustSplit cs = (cs, none) := by unfold rustSplit; rw [hr]
    rw [hx] at h
    simp at h
  | some pr =>
    by_cases h2 : pr.2 = []
    · have hx : rustSplit cs = (cs, none) := by
        unfold rustSplit
        rw [hr]
        simp [h2]
      rw [hx] at h
      simp at h
    · have hx : rustSplit cs = (pr.2.reverse, some pr.1.reverse) := by
        unfold rustSplit
        rw [hr]
        simp [h2]
      rw [hx] at h ⊢
      simp only [Option.some.injEq] at h
      have hrec := revSplitDot_eq cs.reverse pr.1 pr.2 (by rw [hr])
      have hcs : cs = (pr.1 ++ '.' :: pr.2).reverse := by
        rw [← hrec, List.reverse_reverse]
      rw [hcs, List.reverse_append, List.reverse_cons, List.append_assoc, ← h]
      simp

theorem length_backupExt (p : FsPath) (ts : Nat) :
    (backupExt p ts).length =
      ((rustSplit (lastComp p)).2.getD []).length + (Nat.repr ts).toList.length + 5 := by
  simp [backupExt]
  omega

theorem backupPath_comps (p : FsPath) (ts : Nat) (h : p.comps ≠ []) :
    (backupPath p ts).comps =
      p.comps.dropLast ++ [(rustSplit (lastComp p)).1 ++ '.' :: backupExt p ts] := by
  simp [backupPath, withExtension, h]

theorem backupPath_ne (p : FsPath) (ts : Nat) (h : p.comps ≠ []) :
    backupPath p ts ≠ p := by
  intro heq
  have hcomp := congrArg FsPath.comps heq
  rw [backupPath_comps p ts h] at hcomp
  have h1 : p.comps.getLast? =
      some ((rustSplit (lastComp p)).1 ++ '.' :: backupExt p ts) := by
    rw [← hcomp]
    exact List.getLast?_concat _
  have h2 : lastComp p = (rustSplit (lastComp p)).1 ++ '.' :: backupExt p ts := by
    conv_lhs => rw [show lastComp p = p.comps.getLast?.getD [] from rfl, h1]
    simp
  have hlen := congrArg List.length h2
  simp only [List.length_append, List.length_cons] at hlen
  rw [length_backupExt] at hlen
  cases hx : (rustSplit (lastComp p)).2 with
  | none =>
    have hs := rustSplit_none_eq (lastComp p) hx
    rw [hs, hx] at hlen
    simp only [Option.getD_none, List.length_nil] at hlen
    omega
  | some e =>
    have hs := rustSplit_some_eq (lastComp p) e hx
    have h3 := congrArg List.length hs
    simp only [List.length_append, List.length_cons] at h3
    rw [hx] at hlen
    simp at hlen
    omega

theorem comps_ne_nil_of_parent (p : FsPath) (par : FsPath)
    (h : parent p = some par) : p.comps ≠ [] := by
  intro hc
  simp [parent, hc] at h

theorem parent_backupPath (p par : FsPath) (ts : Nat)
    (h : parent p = some par) : parent (backupPath p ts) = some par := by
  have hne := comps_ne_nil_of_parent p par h
  have hc := backupPath_comps p ts hne
  have habs : (backupPath p ts).absolute = p.absolute := by
    simp [backupPath, withExtension, hne]
  have hpar2 : some (⟨p.absolute, p.comps.dropLast⟩ : FsPath) = some par := by
    unfold parent at h
    rw [if_neg hne] at h
    exact h
  unfold parent
  rw [hc, habs, if_neg (by simp), List.dropLast_concat]
  exact hpar2

/-! Characterization lemmas for the engine operations. -/

theorem ensure_parent_none (p : FsPath) (fs : Fs) (h : parent p = none) :
    ensure_parent p fs = (Except.error ErrKind.invalidInput, fs) := by
  simp [ensure_parent, h]

theorem ensure_parent_some (p par : FsPath) (fs : Fs) (h : parent p = some par) :
    ensure_parent p fs = (Except.ok (), createDirAll par fs) := by
  simp [ensure_parent, h]

theorem load_str_no_parent {T : Type} (S : Strategy T) (p : FsPath) (fs : Fs)
    (h : parent p = none) :
    load_str S p fs = (Except.error ErrKind.invalidInput, fs) := by
  simp [load_str, ensure_parent_none p fs h]

theorem load_str_absent {T : Type} (S : Strategy T) (p par : FsPath) (fs : Fs)
    (hpar : parent p = some par) (habs : fileAt fs p = none) :
    load_str S p fs = (Except.error ErrKind.notFound, createDirAll par fs) := by
  have h1 : fileAt (createDirAll par fs) p = none := habs
  simp [load_str, ensure_parent_some p par fs hpar, canonical, h1]

theorem load_str_decode_ok {T : Type} (S : Strategy T) (p par : FsPath) (fs : Fs)
    (s : String) (v : T) (hpar : parent p = some par) (hs : fileAt fs p = some s)
    (hde : S.de s = Except.ok v) :
    load_str S p fs = (Except.ok v, createDirAll par fs) := by
  have h1 : fileAt (createDirAll par fs) p = some s := hs
  simp [load_str, ensure_parent_some p par fs hpar, canonical, h1, hde]

theorem load_str_decode_err {T : Type} (S : Strategy T) (p par : FsPath) (fs : Fs)
    (s : String) (e : ErrKind) (hpar : parent p = some par)
    (hs : fileAt fs p = some s) (hde : S.de s = Except.error e) :
    load_str S p fs = (Except.error e, createDirAll par fs) := by
  have h1 : fileAt (createDirAll par fs) p = some s := hs
  simp [load_str, ensure_parent_some p par fs hpar, canonical, h1, hde]

theorem save_no_parent {T : Type} (S : Strategy T) (v : T) (p : FsPath) (ts : Nat)
    (fs : Fs) (h : parent p = none) :
    save S v p ts fs = (Except.error ErrKind.invalidInput, fs) := by
  simp [save, ensure_parent_none p fs h]

theorem save_no_prior {T : Type} (S : Strategy T) (v : T) (p par : FsPath) (ts : Nat)
    (fs : Fs) (str : String) (hpar : parent p = some par)
    (habs : fileAt fs p = none) (hser : S.ser v = Except.ok str) :
    save S v p ts fs = (Except.ok (), writeFile p str (createDirAll par fs)) := by
  have h1 : fileAt (createDirAll par fs) p = none := habs
  simp [save, ensure_parent_some p par fs hpar, h1, hser]

theorem save_prior {T : Type} (S : Strategy T) (v : T) (p par : FsPath) (ts : Nat)
    (fs : Fs) (c str : String) (hpar : parent p = some par)
    (hc : fileAt fs p = some c) (hser : S.ser v = Except.ok str) :
    save S v p ts fs =
      (Except.ok (),
        writeFile p str (renameMove p (backupPath p ts) (createDirAll par fs))) := by
  have h1 : fileAt (createDirAll par fs) p = some c := hc
  simp [save, ensure_parent_some p par fs hpar, h1, hser]

theorem save_prior_ser_err {T : Type} (S : Strategy T) (v : T) (p par : FsPath)
    (ts : Nat) (fs : Fs) (c : String) (e : ErrKind) (hpar : parent p = some par)
    (hc : fileAt fs p = some c) (hser : S.ser v = Except.error e) :
    save S v p ts fs =
      (Except.error e, renameMove p (backupPath p ts) (createDirAll par fs)) := by
  have h1 : fileAt (createDirAll par fs) p = some c := hc
  simp [save, ensure_parent_some p par fs hpar, h1, hser]

theorem save_no_prior_ser_err {T : Type} (S : Strategy T) (v : T) (p par : FsPath)
    (ts : Nat) (fs : Fs) (e : ErrKind) (hpar : parent p = some par)
    (habs : fileAt fs p = none) (hser : S.ser v = Except.error e) :
    save S v p ts fs = (Except.error e, createDirAll par fs) := by
  have h1 : fileAt (createDirAll par fs) p = none := habs
  simp [save, ensure_parent_some p par fs hpar, h1, hser]

theorem dirs_writeFile (p : FsPath) (s : String) (fs : Fs) :
    (writeFile p s fs).dirs = fs.dirs := rfl

theorem dirs_renameMove (a b : FsPath) (fs : Fs) :
    (renameMove a b fs).dirs = fs.dirs := by
  unfold renameMove
  cases findContent a fs.files <;> rfl

/-- C1: for every path at which a file with content c already exists and
every value v2 the bound strategy serializes to s2, a successful save
leaves the old content under exactly one new sibling file, named
stem.extension.timestamp.bak, moved there by rename; the path itself then
holds exactly s2, and every other file is untouched. -/
theorem save_backup_on_overwrite {T : Type} (S : Strategy T) (v2 : T)
    (p par : FsPath) (ts : Nat) (fs : Fs) (c s2 : String)
    (hpar : parent p = some par) (hc : fileAt fs p = some c)
    (hser : S.ser v2 = Except.ok s2) :
    (save S v2 p ts fs).1 = Except.ok () ∧
    fileAt (save S v2 p ts fs).2 p = some s2 ∧
    fileAt (save S v2 p ts fs).2 (backupPath p ts) = some c ∧
    parent (backupPath p ts) = some par ∧
    lastComp (backupPath p ts) = backupName p ts ∧
    (∀ q : FsPath, q ≠ p → q ≠ backupPath p ts →
      fileAt (save S v2 p ts fs).2 q = fileAt fs q) := by
  have hne := comps_ne_nil_of_parent p par hpar
  have hbne := backupPath_ne p ts hne
  have hc1 : fileAt (createDirAll par fs) p = some c := hc
  rw [save_prior S v2 p par ts fs c s2 hpar hc hser]
  refine ⟨rfl, fileAt_writeFile_self _ _ _, ?_, parent_backupPath p par ts hpar, ?_, ?_⟩
  · rw [fileAt_writeFile_ne p (backupPath p ts) s2 _ hbne]
    exact fileAt_renameMove_dst p (backupPath p ts) c _ hc1
  · rw [show lastComp (backupPath p ts) = (backupPath p ts).comps.getLast?.getD [] from rfl,
      backupPath_comps p ts hne]
    simp [backupName, List.getLast?_concat]
  · intro q hq1 hq2
    rw [fileAt_writeFile_ne p q s2 _ hq1,
      fileAt_renameMove_other p (backupPath p ts) q c _ hc1 hq1 hq2]
    rfl

/-- C2: for every value v whose encoding s round-trips under the bound
strategy (the contract the two shipped strategies satisfy), save then load
on the same path returns Ok of a value equal to v. -/
theorem save_load_round_trip {T : Type} (S : Strategy T) (v : T) (p par : FsPath)
    (ts : Nat) (fs : Fs) (s : String)
    (hpar : parent p = some par) (hser : S.ser v = Except.ok s)
    (hde : S.de s = Except.ok v) :
    (save S v p ts fs).1 = Except.ok () ∧
    (load_str S p (save S v p ts fs).2).1 = Except.ok v := by
  cases hprior : fileAt fs p with
  | none =>
    rw [save_no_prior S v p par ts fs s hpar hprior hser]
    refine ⟨rfl, ?_⟩
    rw [load_str_decode_ok S p par _ s v hpar (fileAt_writeFile_self _ _ _) hde]
  | some c =>
    rw [save_prior S v p par ts fs c s hpar hprior hser]
    refine ⟨rfl, ?_⟩
    rw [load_str_decode_ok S p par _ s v hpar (fileAt_writeFile_self _ _ _) hde]

/-- C4: the new value is written to the path only after the backup rename;
when encoding fails after the rename, save returns that error, the
canonical path is absent, and the original content survives only under the
backup name. -/
theorem save_nonatomic_window {T : Type} (S : Strategy T) (v2 : T)
    (p par : FsPath) (ts : Nat) (fs : Fs) (c : String) (e : ErrKind)
    (hpar : parent p = some par) (hc : fileAt fs p = some c)
    (hser : S.ser v2 = Except.error e) :
    (save S v2 p ts fs).1 = Except.error e ∧
    fileAt (save S v2 p ts fs).2 p = none ∧
    fileAt (save S v2 p ts fs).2 (backupPath p ts) = some c := by
  have hne := comps_ne_nil_of_parent p par hpar
  have hbne := backupPath_ne p ts hne
  have hc1 : fileAt (createDirAll par fs) p = some c := hc
  rw [save_prior_ser_err S v2 p par ts fs c e hpar hc hser]
  exact ⟨rfl, fileAt_renameMove_src p _ c _ hc1 hbne,
    fileAt_renameMove_dst p _ c _ hc1⟩

/-- C10: load_or_init on a present but undecodable file does not destroy
the corrupt content: the fallback save first renames it to the timestamped
backup name, then writes the encoded default to the path. -/
theorem load_or_init_backs_up_corrupt_file {T : Type} (S : Strategy T)
    (ini : Unit → T) (p par : FsPath) (ts : Nat) (fs : Fs) (c s : String)
    (e : ErrKind) (hpar : parent p = some par) (hc : fileAt fs p = some c)
    (hde : S.de c = Except.error e) (hser : S.ser (ini ()) = Except.ok s) :
    (load_or_init S ini p ts fs).1 = Except.ok (ini ()) ∧
    fileAt (load_or_init S ini p ts fs).2 (backupPath p ts) = some c ∧
    fileAt (load_or_init S ini p ts fs).2 p = some s := by
  have hne := comps_ne_nil_of_parent p par hpar
  have hbne := backupPath_ne p ts hne
  have hload := load_str_decode_err S p par fs c e hpar hc hde
  have hc1 : fileAt (createDirAll par fs) p = some c := hc
  have hsave := save_prior S (ini ()) p par ts (createDirAll par fs) c s hpar hc1 hser
  have hrun : load_or_init S ini p ts fs =
      (Except.ok (ini ()),
        writeFile p s
          (renameMove p (backupPath p ts)
            (createDirAll par (createDirAll par fs)))) := by
    unfold load_or_init
    rw [hload]
    dsimp only
    rw [hsave]
  rw [hrun]
  have hc2 : fileAt (createDirAll par (createDirAll par fs)) p = some c := hc
  refine ⟨rfl, ?_, fileAt_writeFile_self _ _ _⟩
  rw [fileAt_writeFile_ne p (backupPath p ts) s _ hbne]
  exact fileAt_renameMove_dst p (backupPath p ts) c _ hc2

/-- C3: load_or_init returns the loaded value when load succeeds; on any
failure of load, of whatever kind, it invokes the producer, persists its
result via save, and returns it (errors of that save propagate). -/
theorem load_or_init_fallback {T : Type} (S : Strategy T) (ini : Unit → T)
    (p : FsPath) (ts : Nat) (fs : Fs) (v : T) (e e2 : ErrKind) :
    ((load_str S p fs).1 = Except.ok v →
      load_or_init S ini p ts fs = (Except.ok v, (load_str S p fs).2)) ∧
    ((load_str S p fs).1 = Except.error e →
      (save S (ini ()) p ts (load_str S p fs).2).1 = Except.ok () →
      load_or_init S ini p ts fs =
        (Except.ok (ini ()), (save S (ini ()) p ts (load_str S p fs).2).2)) ∧
    ((load_str S p fs).1 = Except.error e →
      (save S (ini ()) p ts (load_str S p fs).2).1 = Except.error e2 →
      load_or_init S ini p ts fs =
        (Except.error e2, (save S (ini ()) p ts (load_str S p fs).2).2)) := by
  rcases hl : load_str S p fs with ⟨r1, fs1⟩
  rcases hs : save S (ini ()) p ts fs1 with ⟨r2, fs2⟩
  refine ⟨?_, ?_, ?_⟩
  · intro h1
    simp only at h1
    unfold load_or_init
    rw [hl, h1]
  · intro h1 h2
    simp only at h1 h2
    unfold load_or_init
    rw [hl, h1]
    dsimp only
    rw [hs, h2]
  · intro h1 h2
    simp only at h1 h2
    unfold load_or_init
    rw [hl, h1]
    dsimp only
    rw [hs, h2]

/-- C5: load fails with NotFound when the file is absent, with InvalidData
when the present text does not decode under the bound strategy (whose
failures, as in the shipped strategies, are InvalidData), and succeeds with
the decoded value otherwise.  OS-level permission and device failures lie
outside the model. -/
theorem load_error_classification {T : Type} (S : Strategy T) (p par : FsPath)
    (fs : Fs) (s : String) (v : T) (hpar : parent p = some par)
    (hwf : ∀ t e, S.de t = Except.error e → e = ErrKind.invalidData) :
    (fileAt fs p = none → (load_str S p fs).1 = Except.error ErrKind.notFound) ∧
    (fileAt fs p = some s → (S.de s).isOk = false →
      (load_str S p fs).1 = Except.error ErrKind.invalidData) ∧
    (fileAt fs p = some s → S.de s = Except.ok v →
      (load_str S p fs).1 = Except.ok v) := by
  refine ⟨?_, ?_, ?_⟩
  · intro h
    rw [load_str_absent S p par fs hpar h]
  · intro h hnotok
    cases hx : S.de s with
    | ok w => rw [hx] at hnotok; simp [Except.isOk, Except.toBool] at hnotok
    | error e =>
      rw [load_str_decode_err S p par fs s e hpar h hx, hwf s e hx]
  · intro h hde
    rw [load_str_decode_ok S p par fs s v hpar h hde]

/-- On a path that has a parent, load never reports InvalidInput, provided
the strategy decode failures are InvalidData, as in the shipped
strategies. -/
theorem load_str_not_invalid_input {T : Type} (S : Strategy T) (p par : FsPath)
    (fs : Fs) (hpar : parent p = some par)
    (hde : ∀ t e, S.de t = Except.error e → e = ErrKind.invalidData) :
    (load_str S p fs).1 ≠ Except.error ErrKind.invalidInput := by
  cases hx : fileAt fs p with
  | none =>
    rw [load_str_absent S p par fs hpar hx]
    simp
  | some s =>
    cases hy : S.de s with
    | ok w =>
      rw [load_str_decode_ok S p par fs s w hpar hx hy]
      simp
    | error e =>
      rw [load_str_decode_err S p par fs s e hpar hx hy, hde s e hy]
      simp

/-- On a path that has a parent, save never reports InvalidInput, provided
the strategy encode failures are InvalidData, as in the shipped
strategies. -/
theorem save_not_invalid_input {T : Type} (S : Strategy T) (v : T) (p par : FsPath)
    (ts : Nat) (fs : Fs) (hpar : parent p = some par)
    (hser : ∀ w e, S.ser w = Except.error e → e = ErrKind.invalidData) :
    (save S v p ts fs).1 ≠ Except.error ErrKind.invalidInput := by
  cases hx : fileAt fs p with
  | none =>
    cases hy : S.ser v with
    | ok str =>
      rw [save_no_prior S v p par ts fs str hpar hx hy]
      simp
    | error e =>
      rw [save_no_prior_ser_err S v p par ts fs e hpar hx hy, hser v e hy]
      simp
  | some c =>
    cases hy : S.ser v with
    | ok str =>
      rw [save_prior S v p par ts fs c str hpar hx hy]
      simp
    | error e =>
      rw [save_prior_ser_err S v p par ts fs c e hpar hx hy, hser v e hy]
      simp

/-- C7 amended: the engine operations fail with InvalidInput exactly when
Path::parent is none, that is on a root or empty path.  A bare relative
filename has the empty path as parent (create_dir_all of which is a no-op),
so it does not fail. -/
theorem invalid_input_iff_no_parent {T : Type} (S : Strategy T) (v : T)
    (ini : Unit → T) (p : FsPath) (ts : Nat) (fs : Fs)
    (hde : ∀ t e, S.de t = Except.error e → e = ErrKind.invalidData)
    (hser : ∀ w e, S.ser w = Except.error e → e = ErrKind.invalidData) :
    ((load_str S p fs).1 = Except.error ErrKind.invalidInput ↔ parent p = none) ∧
    ((save S v p ts fs).1 = Except.error ErrKind.invalidInput ↔ parent p = none) ∧
    ((load_or_init S ini p ts fs).1 = Except.error ErrKind.invalidInput ↔
      parent p = none) := by
  cases hp : parent p with
  | none =>
    have hl := load_str_no_parent S p fs hp
    have hsv := save_no_parent S v p ts fs hp
    have hsv2 := save_no_parent S (ini ()) p ts fs hp
    have hli : load_or_init S ini p ts fs = (Except.error ErrKind.invalidInput, fs) := by
      unfold load_or_init
      rw [hl]
      dsimp only
      rw [hsv2]
    rw [hl, hsv, hli]
    simp
  | some par =>
    refine ⟨?_, ?_, ?_⟩
    · simp only [load_str_not_invalid_input S p par fs hp hde]
      simp
    · simp only [save_not_invalid_input S v p par ts fs hp hser]
      simp
    · constructor
      · intro h
        exfalso
        rcases hl : load_str S p fs with ⟨r1, fs1⟩
        unfold load_or_init at h
        rw [hl] at h
        cases r1 with
        | ok w => simp at h
        | error e1 =>
          dsimp only at h
          rcases hs : save S (ini ()) p ts fs1 with ⟨r2, fs2⟩
          rw [hs] at h
          cases r2 with
          | ok u => simp at h
          | error e2 =>
            simp only at h
            have h2 : e2 = ErrKind.invalidInput := by
              simpa using h
            have h3 := save_not_invalid_input S (ini ()) p par ts fs1 hp hser
            rw [hs, h2] at h3
            exact h3 rfl
      · intro h
        simp [hp] at h

/-- C8: both load and save run ensure_parent before touching the file, so
afterwards the directory set contains the parent directory and every
ancestor of it, whatever the operation returned; this mutation happens even
on the read-only load. -/
theorem parent_dirs_created_before_io {T : Type} (S : Strategy T) (v : T)
    (p par : FsPath) (ts : Nat) (fs : Fs) (hpar : parent p = some par) :
    (load_str S p fs).2.dirs = dirChain par ++ fs.dirs ∧
    (save S v p ts fs).2.dirs = dirChain par ++ fs.dirs ∧
    (par.comps ≠ [] → par ∈ dirChain par) := by
  refine ⟨?_, ?_, ?_⟩
  · cases hx : fileAt fs p with
    | none =>
      rw [load_str_absent S p par fs hpar hx]
      rfl
    | some s =>
      cases hy : S.de s with
      | ok w =>
        rw [load_str_decode_ok S p par fs s w hpar hx hy]
        rfl
      | error e =>
        rw [load_str_decode_err S p par fs s e hpar hx hy]
        rfl
  · cases hx : fileAt fs p with
    | none =>
      cases hy : S.ser v with
      | ok str =>
        rw [save_no_prior S v p par ts fs str hpar hx hy]
        rfl
      | error e =>
        rw [save_no_prior_ser_err S v p par ts fs e hpar hx hy]
        rfl
    | some c =>
      cases hy : S.ser v with
      | ok str =>
        rw [save_prior S v p par ts fs c str hpar hx hy]
        rw [show (writeFile p str (renameMove p (backupPath p ts)
          (createDirAll par fs))).dirs
            = (renameMove p (backupPath p ts) (createDirAll par fs)).dirs from rfl,
          dirs_renameMove]
        rfl
      | error e =>
        rw [save_prior_ser_err S v p par ts fs c e hpar hx hy]
        rw [show (Except.error e,
          renameMove p (backupPath p ts) (createDirAll par fs)).2
            = renameMove p (backupPath p ts) (createDirAll par fs) from rfl,
          dirs_renameMove]
        rfl
  · intro hne
    have hlen : 0 < par.comps.length := List.length_pos.mpr hne
    simp only [dirChain, List.mem_map, List.mem_range]
    refine ⟨par.comps.length - 1, by omega, ?_⟩
    rw [Nat.sub_add_cancel hlen, List.take_length]

/-- C9: with the EDITOR variable unset, edit fails with NotFound and leaves
the filesystem untouched; with it set and the subprocess producing an exit
status, edit fails with the generic Other error exactly when that status
reports failure, again without touching the filesystem. -/
theorem edit_editor_env (run : List Char → FsPath → Except ErrKind Bool)
    (p : FsPath) (fs : Fs) (ed : List Char) (b : Bool) :
    edit none run p fs = (Except.error ErrKind.notFound, fs) ∧
    (run ed p = Except.ok b →
      (((edit (some ed) run p fs).1 = Except.error ErrKind.otherErr) ↔ b = false) ∧
      (edit (some ed) run p fs).2 = fs) := by
  refine ⟨rfl, ?_⟩
  intro h
  cases b
  · simp [edit, h]
  · simp [edit, h]

/-- C6: the code constructs a fresh Lazy cell on every accessor call, so
the directory computation runs once per call, not once per process: after
two calls the closure has run twice.  The returned value is nonetheless
equal across calls, the computation being a fixed function. -/
theorem project_dirs_recomputed_per_call (f : Unit → ProjectDirs) :
    (config_dir f (config_dir f 0).2).2 = 2 ∧
    (config_dir f (config_dir f 0).2).1 = (config_dir f 0).1 ∧
    (data_dir f (config_dir f 0).2).2 = 2 := by
  exact ⟨rfl, rfl, rfl⟩

/-! Concrete instances used by the witnesses and the counterexample. -/

/-- A concrete strategy on Nat with a finite decode table; as in the
shipped strategies, every decode failure is an InvalidData error, and
encoding never fails. -/
def natStrat : Strategy Nat where
  ser := fun n => Except.ok (Nat.repr n)
  de := fun s =>
    if s = "0" then Except.ok 0
    else if s = "5" then Except.ok 5
    else Except.error ErrKind.invalidData

/-- A strategy whose encoding always fails, to exercise the failure window
of save. -/
def failStrat : Strategy Nat where
  ser := fun _ => Except.error ErrKind.invalidData
  de := fun _ => Except.error ErrKind.invalidData

def dirPath : FsPath := ⟨false, [ "dir".toList ]⟩

def cfgPath : FsPath := ⟨false, [ "dir".toList, "cfg.json".toList ]⟩

def bareName : FsPath := ⟨false, [ "cfg.json".toList ]⟩

def rootPath : FsPath := ⟨true, []⟩

def emptyFs : Fs := ⟨[], []⟩

def fsZero : Fs := ⟨[(cfgPath, "0")], []⟩

def fsOld : Fs := ⟨[(cfgPath, "old")], []⟩

def fsBad : Fs := ⟨[(cfgPath, "zz")], []⟩

def viCmd : List Char := "vi".toList

def runFail : List Char → FsPath → Except ErrKind Bool := fun _ _ => Except.ok false

theorem natStrat_de_wf :
    ∀ t e, natStrat.de t = Except.error e → e = ErrKind.invalidData := by
  intro t e h
  simp only [natStrat] at h
  split at h
  · cases h
  · split at h
    · cases h
    · injection h with h2
      exact h2.symm

theorem natStrat_ser_wf :
    ∀ w e, natStrat.ser w = Except.error e → e = ErrKind.invalidData := by
  intro w e h
  simp only [natStrat] at h
  cases h

/-- C7 counterexample: on a bare relative filename, save succeeds instead
of failing with InvalidInput, because Path::parent of a bare filename is
the empty path and create_dir_all on the empty path is a no-op success —
the crate's own tests save to bare filenames. -/
theorem bare_filename_save_ok :
    (save natStrat 5 bareName 7 emptyFs).1 = Except.ok () := by rfl

/-- Witness for C1 at a concrete overwrite of dir/cfg.json. -/
theorem save_backup_on_overwrite_witness :
    (save natStrat 5 cfgPath 7 fsOld).1 = Except.ok () ∧
    fileAt (save natStrat 5 cfgPath 7 fsOld).2 cfgPath = some "5" ∧
    fileAt (save natStrat 5 cfgPath 7 fsOld).2 (backupPath cfgPath 7) = some "old" ∧
    fileAt (save natStrat 5 cfgPath 7 fsOld).2 rootPath = fileAt fsOld rootPath := by
  have h := save_backup_on_overwrite natStrat 5 cfgPath dirPath 7 fsOld "old" "5"
    (by rfl) (by rfl) (by rfl)
  exact ⟨h.1, h.2.1, h.2.2.1, h.2.2.2.2.2 rootPath (by decide) (by decide)⟩

/-- Witness for C2 at a concrete save and load of the value 5. -/
theorem save_load_round_trip_witness :
    (save natStrat 5 cfgPath 7 emptyFs).1 = Except.ok () ∧
    (load_str natStrat cfgPath (save natStrat 5 cfgPath 7 emptyFs).2).1 =
      Except.ok 5 :=
  save_load_round_trip natStrat 5 cfgPath dirPath 7 emptyFs "5"
    (by rfl) (by rfl) (by rfl)

/-- Witness for C3: a readable file is returned as loaded; an absent file
makes load_or_init produce, save and return the default. -/
theorem load_or_init_fallback_witness :
    (load_or_init natStrat (fun _ => 5) cfgPath 7 fsZero).1 = Except.ok 0 ∧
    (load_or_init natStrat (fun _ => 5) cfgPath 7 emptyFs).1 = Except.ok 5 := by
  have h1 := (load_or_init_fallback natStrat (fun _ => 5) cfgPath 7 fsZero 0
    ErrKind.notFound ErrKind.notFound).1 (by rfl)
  have h2 := (load_or_init_fallback natStrat (fun _ => 5) cfgPath 7 emptyFs 0
    ErrKind.notFound ErrKind.notFound).2.1 (by rfl) (by rfl)
  rw [h1, h2]
  exact ⟨rfl, rfl⟩

/-- Witness for C4 at a concrete failing encoder. -/
theorem save_nonatomic_window_witness :
    (save failStrat 5 cfgPath 7 fsOld).1 = Except.error ErrKind.invalidData ∧
    fileAt (save failStrat 5 cfgPath 7 fsOld).2 cfgPath = none ∧
    fileAt (save failStrat 5 cfgPath 7 fsOld).2 (backupPath cfgPath 7) =
      some "old" :=
  save_nonatomic_window failStrat 5 cfgPath dirPath 7 fsOld "old"
    ErrKind.invalidData (by rfl) (by rfl) (by rfl)

/-- Witness for C5: absent file, undecodable file, decodable file. -/
theorem load_error_classification_witness :
    (load_str natStrat cfgPath emptyFs).1 = Except.error ErrKind.notFound ∧
    (load_str natStrat cfgPath fsBad).1 = Except.error ErrKind.invalidData ∧
    (load_str natStrat cfgPath fsZero).1 = Except.ok 0 := by
  refine ⟨?_, ?_, ?_⟩
  · exact (load_error_classification natStrat cfgPath dirPath emptyFs "zz" 0
      (by rfl) natStrat_de_wf).1 (by rfl)
  · exact (load_error_classification natStrat cfgPath dirPath fsBad "zz" 0
      (by rfl) natStrat_de_wf).2.1 (by rfl) (by rfl)
  · exact (load_error_classification natStrat cfgPath dirPath fsZero "0" 0
      (by rfl) natStrat_de_wf).2.2 (by rfl) (by rfl)

/-- Witness for C7 as amended: a root path does fail with InvalidInput and
a bare filename does not. -/
theorem invalid_input_iff_no_parent_witness :
    (load_str natStrat rootPath emptyFs).1 = Except.error ErrKind.invalidInput ∧
    (save natStrat 5 bareName 7 emptyFs).1 ≠ Except.error ErrKind.invalidInput := by
  constructor
  · exact (invalid_input_iff_no_parent natStrat 5 (fun _ => 5) rootPath 7 emptyFs
      natStrat_de_wf natStrat_ser_wf).1.mpr (by rfl)
  · intro hcontra
    have h := (invalid_input_iff_no_parent natStrat 5 (fun _ => 5) bareName 7
      emptyFs natStrat_de_wf natStrat_ser_wf).2.1.mp hcontra
    exact absurd h (by decide)

/-- Witness for C8 at a concrete load in an empty filesystem. -/
theorem parent_dirs_created_before_io_witness :
    (load_str natStrat cfgPath emptyFs).2.dirs = dirChain dirPath ++ emptyFs.dirs ∧
    dirPath ∈ dirChain dirPath := by
  have h := parent_dirs_created_before_io natStrat 5 cfgPath dirPath 7 emptyFs
    (by rfl)
  exact ⟨h.1, h.2.2 (by decide)⟩

/-- Witness for C10 at a concrete corrupt file: the undecodable content
survives as the backup and the default's encoding lands at the path. -/
theorem load_or_init_backs_up_corrupt_file_witness :
    (load_or_init natStrat (fun _ => 5) cfgPath 7 fsBad).1 = Except.ok 5 ∧
    fileAt (load_or_init natStrat (fun _ => 5) cfgPath 7 fsBad).2
      (backupPath cfgPath 7) = some "zz" ∧
    fileAt (load_or_init natStrat (fun _ => 5) cfgPath 7 fsBad).2 cfgPath =
      some "5" :=
  load_or_init_backs_up_corrupt_file natStrat (fun _ => 5) cfgPath dirPath 7 fsBad
    "zz" "5" ErrKind.invalidData (by rfl) (by rfl) (by rfl) (by rfl)

/-- Witness for C9 at a concrete failing editor subprocess. -/
theorem edit_editor_env_witness :
    edit none runFail cfgPath emptyFs = (Except.error ErrKind.notFound, emptyFs) ∧
    (edit (some viCmd) runFail cfgPath emptyFs).1 = Except.error ErrKind.otherErr := by
  have h := edit_editor_env runFail cfgPath emptyFs viCmd false
  exact ⟨h.1, ((h.2 (by rfl)).1).mpr rfl⟩

end Sculptor
